import Mathlib

/-!
Verification development for the esp32-usb-uac-experiments repository.

Mode A (src/serial-mic/src/main.cpp) is embedded in namespace SerialMic:
the DC-removal filter dc_block_and_copy, the CRC-16/CCITT routine, the
little-endian helpers, the packet framing performed inline in
i2s_reader_task, and the per-cycle state machine of that task.

Mode B (src/usb-audio/main/main.c) is embedded in namespace UsbAudio:
the per-sample gain and mute transform and the write loop of
usb_uac_device_output_cb, the input callback, and the volume decode of
usb_uac_device_set_volume_cb.

Machine integers are modelled as Nat and Int with explicit reduction
modulo 2^w at the points where the C code stores into a fixed-width
variable.  C truncating division on signed operands is Int.tdiv, the C
arithmetic right shift of gcc on signed operands is Int.fdiv by a power
of two, and unsigned arithmetic is Nat arithmetic modulo 2^32.
-/

namespace SerialMic

/-- Sync marker byte of the packet format (PKT_SYNC in the source). -/
def PKT_SYNC : Nat := 0xA6

/-- Header length in bytes: type + length + seq + usec (PKT_HEADER_LEN). -/
def PKT_HEADER_LEN : Nat := 1 + 2 + 4 + 4

/-- Trailer length in bytes: crc16 (PKT_TRAILER_LEN). -/
def PKT_TRAILER_LEN : Nat := 2

/-- I2S read chunk in samples (SAMPLE_BUFFER_SIZE). -/
def SAMPLE_BUFFER_SIZE : Nat := 1024

/-- Smoothing shift of the DC estimate update (LERP_SHIFT). -/
def LERP_SHIFT : Nat := 10

/-- Reinterpretation of an arbitrary integer as a 32-bit two-complement
value: the value a C int32_t variable holds after a wrapping store. -/
def wrap32 (x : Int) : Int := (x + 2 ^ 31) % 2 ^ 32 - 2 ^ 31

/-- The saturation helper sat16 of the source: clamp an int32 value to
the signed 16-bit range. -/
def sat16 (v : Int) : Int :=
  if 32767 < v then 32767 else if v < -32768 then -32768 else v

/-- C arithmetic right shift on a signed operand (gcc semantics): shift
by k bits is floor division by 2^k. -/
def asr (x : Int) (k : Nat) : Int := Int.fdiv x (2 ^ k)

/-- The function dc_block_and_copy of src/serial-mic/src/main.cpp, on a
block a of samples with prior running estimate dc_est.  The source
mutates the block in place and the global dc_est; here the pair of the
rewritten block and the new estimate is returned.  The int64 sum never
wraps for any block that fits in memory, so it is a plain Int; every
int32 store goes through wrap32; sum / n is C truncating division. -/
def dc_block_and_copy (a : List Int) (dc_est : Int) : List Int × Int :=
  let sum : Int := a.foldl (· + ·) 0
  let mean_q15 : Int := wrap32 (Int.tdiv sum (a.length : Int) * 2 ^ 15)
  let dc2 : Int := wrap32 (dc_est + asr (wrap32 (mean_q15 - dc_est)) LERP_SHIFT)
  (a.map (fun s =>
      sat16 (asr (wrap32 (wrap32 (wrap32 (s * 2 ^ 15) - dc2) + 2 ^ 14)) 15)),
   dc2)

/-- One round of the inner bit loop of crc16_ccitt, on a uint16 value. -/
def crc16_round (crc : Nat) : Nat :=
  if crc &&& 0x8000 ≠ 0 then ((crc <<< 1) ^^^ 0x1021) % 2 ^ 16
  else (crc <<< 1) % 2 ^ 16

/-- One byte step of crc16_ccitt: xor the byte into the high half of the
crc, then run eight rounds of the bit loop. -/
def crc16_update (crc b : Nat) : Nat :=
  crc16_round^[8] (crc ^^^ ((b % 256) <<< 8))

/-- The function crc16_ccitt of the source: polynomial 0x1021, initial
value 0xFFFF, no reflection, no final xor, over a list of bytes. -/
def crc16_ccitt (data : List Nat) : Nat := data.foldl crc16_update 0xFFFF

/-- The helper le_write16: the two little-endian bytes of a uint16 store
of v. -/
def le_write16 (v : Nat) : List Nat := [v % 256, v / 256 % 256]

/-- The helper le_write32: the four little-endian bytes of a uint32 store
of v. -/
def le_write32 (v : Nat) : List Nat :=
  [v % 256, v / 256 % 256, v / 2 ^ 16 % 256, v / 2 ^ 24 % 256]

/-- The payload byte emission loop of i2s_reader_task: each int16 sample
s contributes the bytes (s AND 0xFF) and ((s >> 8) AND 0xFF), where the
shift is arithmetic. -/
def payload_bytes : List Int → List Nat
  | [] => []
  | s :: rest =>
      (s % 256).toNat :: ((asr s 8) % 256).toNat :: payload_bytes rest

/-- The packet framing performed inline in i2s_reader_task: sync byte,
uint16 payload length, uint32 seq, uint32 timestamp, the PCM16 payload
in little-endian order, then the CRC over header plus payload as a
little-endian uint16 trailer (USE_CRC is 1 in the source). -/
def framePacket (samples : List Int) (seq ts : Nat) : List Nat :=
  let payload_len : Nat := 2 * samples.length % 2 ^ 16
  let hp : List Nat :=
    PKT_SYNC :: (le_write16 payload_len ++
      (le_write32 seq ++ (le_write32 ts ++ payload_bytes samples)))
  hp ++ le_write16 (crc16_ccitt (hp.take (PKT_HEADER_LEN + payload_len)))

/-- The per-cycle inputs of one iteration of the while loop of
i2s_reader_task, supplied by the environment: the outcome of i2s_read
(none models an error return, some with the list of whole int16 samples
otherwise, where an empty list models a zero-length read), the value of
esp_timer_get_time truncated to uint32, and whether the malloc of the
transport buffer succeeds. -/
structure CycleIn where
  read : Option (List Int)
  ts : Nat
  allocOk : Bool

/-- The state of i2s_reader_task that persists across loop iterations:
the uint32 sequence counter and the running DC estimate. -/
structure ReaderState where
  seq : Nat
  dc_est : Int

/-- One iteration of the while loop of i2s_reader_task: on a read error
or a zero-length read the cycle is skipped; otherwise the block is DC
filtered in place, framed with the current seq (post-increment) and the
timestamp, and the packet is enqueued when the transport buffer
allocation succeeds and dropped otherwise.  Returns the new state and
the enqueued packet bytes, if any. -/
def readerStep (st : ReaderState) (c : CycleIn) : ReaderState × Option (List Nat) :=
  match c.read with
  | none => (st, none)
  | some samples =>
    if samples.length = 0 then (st, none)
    else
      let fd := dc_block_and_copy samples st.dc_est
      let pkt := framePacket fd.1 st.seq c.ts
      let st2 : ReaderState := ⟨(st.seq + 1) % 2 ^ 32, fd.2⟩
      if c.allocOk then (st2, some pkt) else (st2, none)

/-- Run i2s_reader_task over a list of cycle inputs, collecting the
packets handed to the queue in order. -/
def runReader (st : ReaderState) : List CycleIn → ReaderState × List (List Nat)
  | [] => (st, [])
  | c :: cs =>
    let so := readerStep st c
    let rest := runReader so.1 cs
    (rest.1, match so.2 with | some p => p :: rest.2 | none => rest.2)

/-- Decode the little-endian uint32 sequence field at offsets 3 to 6 of
a packet byte list. -/
def decodeSeq (p : List Nat) : Nat :=
  p.getD 3 0 + 256 * p.getD 4 0 + 2 ^ 16 * p.getD 5 0 + 2 ^ 24 * p.getD 6 0

/-- Decode the little-endian uint32 timestamp field at offsets 7 to 10
of a packet byte list. -/
def decodeTs (p : List Nat) : Nat :=
  p.getD 7 0 + 256 * p.getD 8 0 + 2 ^ 16 * p.getD 9 0 + 2 ^ 24 * p.getD 10 0

/-- A cycle whose read succeeds with a nonzero byte count: exactly the
cycles in which i2s_reader_task frames a packet and consumes one
sequence number. -/
def framedCycle (c : CycleIn) : Bool :=
  match c.read with
  | none => false
  | some samples => decide (samples.length ≠ 0)

/-- Indices, in the numbering of framed cycles, of the cycles whose
packet is actually enqueued (allocation succeeded), starting the count
at k.  The packet framed in cycle number i carries sequence value
seq0 + i mod 2^32, so this list describes which sequence values reach
the queue. -/
def emitIndicesAux (k : Nat) : List CycleIn → List Nat
  | [] => []
  | c :: cs =>
    if framedCycle c then
      if c.allocOk then k :: emitIndicesAux (k + 1) cs
      else emitIndicesAux (k + 1) cs
    else emitIndicesAux k cs

/-- Indices of emitted packets among framed cycles, counted from 0. -/
def emitIndices (cs : List CycleIn) : List Nat := emitIndicesAux 0 cs

/-- Transcribes the specification formula for the updated DC estimate:
state plus the arithmetic right shift by LERP_SHIFT of the difference
between the Q15 block mean and the state.  Compared against the
source-derived dc_block_and_copy in the theorem for the filter. -/
def dcUpdateSpec (a : List Int) (dc : Int) : Int :=
  dc + Int.fdiv (Int.tdiv (a.foldl (· + ·) 0) (a.length : Int) * 2 ^ 15 - dc) (2 ^ 10)

end SerialMic

namespace UsbAudio

/-- The esp_err_t success value ESP_OK. -/
def ESP_OK : Int := 0

/-- The esp_err_t generic failure value ESP_FAIL. -/
def ESP_FAIL : Int := -1

/-- The unsigned 32-bit value obtained by converting a signed int32
value (two-complement reinterpretation). -/
def toU32 (x : Int) : Nat := (x % 2 ^ 32).toNat

/-- The signed int32 value obtained by storing an unsigned 32-bit value
into an int32_t variable (gcc wrapping conversion). -/
def ofU32 (n : Nat) : Int :=
  if n < 2 ^ 31 then (n : Int) else (n : Int) - 2 ^ 32

/-- The per-sample transform of usb_uac_device_output_cb.  When muted
the sample is zeroed.  Otherwise the source computes
(sample * volume_factor) / 100 where sample is int32_t and
volume_factor is uint32_t: by the C usual arithmetic conversions the
multiplication and the division are carried out in unsigned 32-bit
arithmetic, the quotient is stored back into the int32 sample, and the
result is clamped to the signed 16-bit range (the final int16_t store
is the identity on the clamped range). -/
def usb_out_sample (is_muted : Bool) (volume_factor : Nat) (s : Int) : Int :=
  if is_muted then 0
  else
    let scaled := ofU32 (toU32 s * (volume_factor % 2 ^ 32) % 2 ^ 32 / 100)
    if 32767 < scaled then 32767
    else if scaled < -32768 then -32768
    else scaled

/-- The dB decode of usb_uac_device_set_volume_cb: the C expression
_volume / 2 - 50 is evaluated in unsigned arithmetic and the result is
stored into an int, so it is the uint32 value _volume / 2 - 50 (mod
2^32) reinterpreted as int32. -/
def volume_db (v : Nat) : Int := ofU32 ((v % 2 ^ 32 / 2 + 2 ^ 32 - 50) % 2 ^ 32)

/-- The volume_factor stored by usb_uac_device_set_volume_cb when the
decoded dB value is 0: the source computes pow(10, volume_db / 20.0f)
* 100.0f and stores it into a uint32_t; at volume_db = 0 the float
computation is exact (pow(10, 0.0) = 1.0 in IEEE arithmetic), so the
stored factor is exactly 100, representing a gain of 1.0. -/
def volume_factor_at_zero_db : Nat := 100

/-- The write loop at the end of usb_uac_device_output_cb, with the
hardware modelled as an oracle hw giving, per call index, the
bytes_written that i2s_channel_write reports for a request of the
remaining size.  The loop keeps calling the hardware with the remaining
byte count until the total written reaches len.  The fuel argument only
bounds the recursion; none means the fuel ran out before the loop
exited. -/
def i2s_write_loop (hw : Nat → Nat → Nat) (len : Nat) :
    Nat → Nat → Nat → Option Nat
  | 0, total, _ => if len ≤ total then some total else none
  | fuel + 1, total, k =>
    if len ≤ total then some total
    else i2s_write_loop hw len fuel (total + hw k (len - total)) (k + 1)

/-- The full flush performed by usb_uac_device_output_cb for a len byte
buffer, starting from zero bytes written. -/
def usb_output_flush (hw : Nat → Nat → Nat) (len : Nat) : Option Nat :=
  i2s_write_loop hw len len 0 0

/-- The callback usb_uac_device_output_cb.  The buffer is modelled as
its list of int16 samples (len bytes hold len / 2 samples).  When the
render channel handle tx is null the callback returns ESP_FAIL at once,
leaving the buffer untouched and performing no hardware write (the
third component is none).  Otherwise every sample is transformed by the
gain and mute logic, the write loop flushes 2 * buf.length bytes, and
the callback returns ESP_OK. -/
def usb_uac_device_output_cb (tx_init : Bool) (is_muted : Bool)
    (volume_factor : Nat) (hw : Nat → Nat → Nat) (buf : List Int) :
    Int × List Int × Option Nat :=
  if tx_init = false then (ESP_FAIL, buf, none)
  else
    (ESP_OK, buf.map (usb_out_sample is_muted volume_factor),
     usb_output_flush hw (2 * buf.length))

/-- The callback usb_uac_device_input_cb.  When the capture channel
handle rx is null it returns ESP_FAIL at once, leaving the buffer
untouched and reporting zero bytes read.  Otherwise it is a passthrough
of i2s_channel_read, modelled by the status, the data placed in the
buffer, and the byte count that the external driver produces. -/
def usb_uac_device_input_cb (rx_init : Bool) (hw_status : Int)
    (hw_data : List Int) (hw_bytes : Nat) (buf : List Int) :
    Int × List Int × Nat :=
  if rx_init = false then (ESP_FAIL, buf, 0)
  else (hw_status, hw_data, hw_bytes)

end UsbAudio

/-- Auxiliary invariant of the write loop: with enough fuel, a total not
above len, and a hardware oracle that accepts at least one byte per call
and never more than requested, the loop exits with exactly len bytes
written. -/
theorem i2s_write_loop_reaches (hw : Nat → Nat → Nat) (len : Nat)
    (hhw : ∀ k r, 0 < r → 1 ≤ hw k r ∧ hw k r ≤ r) :
    ∀ fuel total k, total ≤ len → len - total ≤ fuel →
      UsbAudio.i2s_write_loop hw len fuel total k = some len := by
  intro fuel
  induction fuel with
  | zero =>
    intro total k h1 h2
    have : total = len := by omega
    simp [UsbAudio.i2s_write_loop, this]
  | succ n ih =>
    intro total k h1 h2
    by_cases hle : len ≤ total
    · have : total = len := by omega
      simp [UsbAudio.i2s_write_loop, this]
    · have hr : 0 < len - total := by omega
      obtain ⟨ha, hb⟩ := hhw k (len - total) hr
      have := ih (total + hw k (len - total)) (k + 1) (by omega) (by omega)
      simpa [UsbAudio.i2s_write_loop, hle] using this

/-- C7: for every buffer of len bytes, the output callback write loop
repeatedly calls the hardware write with the remaining byte count and
returns only once the cumulative bytes written equals len, assuming
every blocking hardware write accepts at least one byte (and at most
the requested amount). -/
theorem output_write_loop_flushes (hw : Nat → Nat → Nat) (len : Nat)
    (hhw : ∀ k r, 0 < r → 1 ≤ hw k r ∧ hw k r ≤ r) :
    UsbAudio.usb_output_flush hw len = some len :=
  i2s_write_loop_reaches hw len hhw len 0 0 (Nat.zero_le len) (by omega)

/-- Witness for C7 at the concrete oracle that accepts every request in
full and a four byte buffer. -/
theorem output_write_loop_flushes_witness :
    UsbAudio.usb_output_flush (fun _ r => r) 4 = some 4 :=
  output_write_loop_flushes (fun _ r => r) 4 (fun _ _ h => ⟨h, le_rfl⟩)

/-- C8: in every capture cycle whose hardware read returns an error or
zero bytes, i2s_reader_task skips the cycle with no state change at
all: running the task on the trace with the failing cycle gives the
same sequence counter, DC estimate, and emitted packet list as running
it without that cycle. -/
theorem reader_skip_preserves_state (st : SerialMic.ReaderState)
    (c : SerialMic.CycleIn) (cs : List SerialMic.CycleIn)
    (h : c.read = none ∨ c.read = some []) :
    SerialMic.runReader st (c :: cs) = SerialMic.runReader st cs := by
  rcases h with h | h <;>
    simp [SerialMic.runReader, SerialMic.readerStep, h]

/-- Witness for C8 at a concrete failed cycle in front of one good
cycle. -/
theorem reader_skip_preserves_state_witness :
    SerialMic.runReader ⟨0, 0⟩ [⟨none, 7, true⟩, ⟨some [5], 9, true⟩] =
      SerialMic.runReader ⟨0, 0⟩ [⟨some [5], 9, true⟩] :=
  reader_skip_preserves_state ⟨0, 0⟩ ⟨none, 7, true⟩ [⟨some [5], 9, true⟩]
    (Or.inl rfl)

/-- C10: when the render channel handle is null the output callback
returns ESP_FAIL immediately with the buffer untouched and no hardware
interaction, and when the capture channel handle is null the input
callback does the same; with initialized handles neither callback ever
returns ESP_FAIL (the input callback passes through the status of the
external i2s read, which is not ESP_FAIL). -/
theorem null_channel_fail_fast (is_muted : Bool) (vf : Nat)
    (hw : Nat → Nat → Nat) (buf : List Int) (hst : Int)
    (hdata : List Int) (hb : Nat) (hok : hst ≠ UsbAudio.ESP_FAIL) :
    UsbAudio.usb_uac_device_output_cb false is_muted vf hw buf =
        (UsbAudio.ESP_FAIL, buf, none)
    ∧ (UsbAudio.usb_uac_device_output_cb true is_muted vf hw buf).1 ≠
        UsbAudio.ESP_FAIL
    ∧ UsbAudio.usb_uac_device_input_cb false hst hdata hb buf =
        (UsbAudio.ESP_FAIL, buf, 0)
    ∧ (UsbAudio.usb_uac_device_input_cb true hst hdata hb buf).1 ≠
        UsbAudio.ESP_FAIL := by
  refine ⟨rfl, ?_, rfl, ?_⟩
  · simp [UsbAudio.usb_uac_device_output_cb, UsbAudio.ESP_OK, UsbAudio.ESP_FAIL]
  · simpa [UsbAudio.usb_uac_device_input_cb] using hok

/-- Witness for C10 at concrete callback inputs with a successful
external read status. -/
theorem null_channel_fail_fast_witness :
    UsbAudio.usb_uac_device_output_cb false false 100 (fun _ r => r) [3] =
        (UsbAudio.ESP_FAIL, [3], none)
    ∧ (UsbAudio.usb_uac_device_output_cb true false 100 (fun _ r => r) [3]).1 ≠
        UsbAudio.ESP_FAIL
    ∧ UsbAudio.usb_uac_device_input_cb false 0 [4] 2 [3] =
        (UsbAudio.ESP_FAIL, [3], 0)
    ∧ (UsbAudio.usb_uac_device_input_cb true 0 [4] 2 [3]).1 ≠
        UsbAudio.ESP_FAIL :=
  null_channel_fail_fast false 100 (fun _ r => r) [3] 0 [4] 2 (by decide)

/-- C5: code bug witness.  The mute half of the claim holds: a muted
sample is written as zero.  The gain half fails in the source: because
sample is int32_t and volume_factor is uint32_t, the product and the
division are computed in unsigned 32-bit arithmetic, so the unmuted
sample -1 at unity gain (volume_factor 100) is written as 32767 instead
of clamp(round(-1 * 1.0)) = -1. -/
theorem output_gain_negative_bug :
    UsbAudio.usb_out_sample true 100 (-1) = 0
    ∧ UsbAudio.usb_out_sample false 100 (-1) = 32767
    ∧ UsbAudio.usb_out_sample false 100 (-1) ≠ -1 := by decide

/-- C6: code bug witness.  The decode half of the claim holds: host
units 100 decode to 0 dB and the stored factor is 100, representing a
gain of exactly 1.0.  The passthrough half fails in the source: at that
unity factor the unmuted sample -32768 is written as 32767, not passed
through unchanged, because the scaling is evaluated in unsigned 32-bit
arithmetic. -/
theorem unity_volume_negative_bug :
    UsbAudio.volume_db 100 = 0
    ∧ UsbAudio.usb_out_sample false UsbAudio.volume_factor_at_zero_db (-32768) =
        32767
    ∧ UsbAudio.usb_out_sample false UsbAudio.volume_factor_at_zero_db (-32768) ≠
        -32768 := by decide

/-- The payload emitted for a block holds two bytes per sample. -/
theorem payload_bytes_length (l : List Int) :
    (SerialMic.payload_bytes l).length = 2 * l.length := by
  induction l with
  | nil => rfl
  | cons s rest ih => simp [SerialMic.payload_bytes, ih]; omega

/-- Cons-normalized shape of a framed packet: the eleven header bytes
followed by the payload and a two byte trailer. -/
theorem framePacket_cons (samples : List Int) (seq ts : Nat) :
    ∃ tr : List Nat, tr.length = 2 ∧
      SerialMic.framePacket samples seq ts =
        0xA6 :: (2 * samples.length % 2 ^ 16 % 256) ::
        (2 * samples.length % 2 ^ 16 / 256 % 256) ::
        (seq % 256) :: (seq / 256 % 256) :: (seq / 2 ^ 16 % 256) ::
        (seq / 2 ^ 24 % 256) ::
        (ts % 256) :: (ts / 256 % 256) :: (ts / 2 ^ 16 % 256) ::
        (ts / 2 ^ 24 % 256) ::
        (SerialMic.payload_bytes samples ++ tr) := by
  refine ⟨SerialMic.le_write16 (SerialMic.crc16_ccitt
    ((SerialMic.PKT_SYNC :: (SerialMic.le_write16 (2 * samples.length % 2 ^ 16) ++
      (SerialMic.le_write32 seq ++ (SerialMic.le_write32 ts ++
        SerialMic.payload_bytes samples)))).take
      (SerialMic.PKT_HEADER_LEN + 2 * samples.length % 2 ^ 16))), rfl, ?_⟩
  simp [SerialMic.framePacket, SerialMic.le_write16, SerialMic.le_write32,
    SerialMic.PKT_SYNC]

/-- C2: every packet framed in mode A from S samples is laid out as
sync byte 0xA6, little-endian payload length equal to 2 S, little-endian
seq, little-endian timestamp, the 2 S little-endian PCM16 payload bytes,
and a two byte trailer, for a total of 11 + 2 S + 2 bytes; in
particular a 1024 sample block framed with seq 0 and timestamp 12345
has header bytes A6 00 08 00 00 00 00 39 30 00 00. -/
theorem framePacket_layout (samples : List Int) (seq ts : Nat)
    (hlen : samples.length ≤ SerialMic.SAMPLE_BUFFER_SIZE)
    (hseq : seq < 2 ^ 32) (hts : ts < 2 ^ 32) :
    (SerialMic.framePacket samples seq ts).length = 11 + 2 * samples.length + 2
    ∧ (SerialMic.framePacket samples seq ts).getD 0 0 = 0xA6
    ∧ (SerialMic.framePacket samples seq ts).getD 1 0 +
        256 * (SerialMic.framePacket samples seq ts).getD 2 0 =
        2 * samples.length
    ∧ SerialMic.decodeSeq (SerialMic.framePacket samples seq ts) = seq
    ∧ SerialMic.decodeTs (SerialMic.framePacket samples seq ts) = ts
    ∧ ((SerialMic.framePacket samples seq ts).drop 11).take
        (2 * samples.length) = SerialMic.payload_bytes samples
    ∧ (samples.length = 1024 → seq = 0 → ts = 12345 →
        (SerialMic.framePacket samples seq ts).take 11 =
          [0xA6, 0x00, 0x08, 0x00, 0x00, 0x00, 0x00, 0x39, 0x30, 0x00, 0x00]) := by
  have hl : samples.length ≤ 1024 := hlen
  obtain ⟨tr, htr, hfp⟩ := framePacket_cons samples seq ts
  rw [hfp]
  refine ⟨?_, rfl, ?_, ?_, ?_, ?_, ?_⟩
  · simp [payload_bytes_length, htr]; omega
  · simp [List.getD]; omega
  · simp [SerialMic.decodeSeq, List.getD]; omega
  · simp [SerialMic.decodeTs, List.getD]; omega
  · have : (SerialMic.payload_bytes samples).length = 2 * samples.length :=
      payload_bytes_length samples
    simp [List.take_left' this]
  · intro h1 h2 h3
    subst h2; subst h3
    rw [h1]
    simp [List.take_succ_cons]

/-- C3: the trailing two bytes of every framed packet are the
little-endian CRC-16/CCITT of the first 11 + payloadLength bytes of
that packet, so recomputing the reference CRC over header plus payload
reproduces the trailer exactly. -/
theorem framePacket_body (samples : List Int) (seq ts : Nat)
    (h : 2 * samples.length < 2 ^ 16) :
    SerialMic.framePacket samples seq ts =
      (SerialMic.PKT_SYNC :: (SerialMic.le_write16 (2 * samples.length) ++
        (SerialMic.le_write32 seq ++ (SerialMic.le_write32 ts ++
          SerialMic.payload_bytes samples)))) ++
      SerialMic.le_write16 (SerialMic.crc16_ccitt
        (SerialMic.PKT_SYNC :: (SerialMic.le_write16 (2 * samples.length) ++
          (SerialMic.le_write32 seq ++ (SerialMic.le_write32 ts ++
            SerialMic.payload_bytes samples))))) := by
  have hpl : 2 * samples.length % 2 ^ 16 = 2 * samples.length :=
    Nat.mod_eq_of_lt h
  have hlen2 : (SerialMic.PKT_SYNC :: (SerialMic.le_write16
      (2 * samples.length) ++ (SerialMic.le_write32 seq ++
      (SerialMic.le_write32 ts ++ SerialMic.payload_bytes samples)))).length
      = SerialMic.PKT_HEADER_LEN + 2 * samples.length := by
    simp [SerialMic.le_write16, SerialMic.le_write32, payload_bytes_length,
      SerialMic.PKT_HEADER_LEN]
    omega
  unfold SerialMic.framePacket
  simp only [hpl]
  rw [← hlen2, List.take_length]

/-- C3: the trailing two bytes of every framed packet are the
little-endian CRC-16/CCITT of the first 11 + payloadLength bytes of
that packet, so recomputing the reference CRC over header plus payload
reproduces the trailer exactly. -/
theorem framePacket_crc_trailer (samples : List Int) (seq ts : Nat)
    (h : 2 * samples.length < 2 ^ 16) :
    (SerialMic.framePacket samples seq ts).drop (11 + 2 * samples.length) =
      SerialMic.le_write16 (SerialMic.crc16_ccitt
        ((SerialMic.framePacket samples seq ts).take
          (11 + 2 * samples.length))) := by
  have hlen2 : (SerialMic.PKT_SYNC :: (SerialMic.le_write16
      (2 * samples.length) ++ (SerialMic.le_write32 seq ++
      (SerialMic.le_write32 ts ++ SerialMic.payload_bytes samples)))).length
      = 11 + 2 * samples.length := by
    simp [SerialMic.le_write16, SerialMic.le_write32, payload_bytes_length]
    omega
  rw [framePacket_body samples seq ts h, List.take_left' hlen2,
    List.drop_left' hlen2]

/-- Witness for C2 at a concrete block of 1024 zero samples with seq 0
and timestamp 12345. -/
theorem framePacket_layout_witness :
    (SerialMic.framePacket (List.replicate 1024 0) 0 12345).take 11 =
      [0xA6, 0x00, 0x08, 0x00, 0x00, 0x00, 0x00, 0x39, 0x30, 0x00, 0x00] :=
  (framePacket_layout (List.replicate 1024 0) 0 12345
    (by rw [List.length_replicate]; exact le_rfl)
    (by norm_num) (by norm_num)).2.2.2.2.2.2 (by rw [List.length_replicate])
    rfl rfl

/-- Witness for C3 at a concrete one sample block. -/
theorem framePacket_crc_trailer_witness :
    (SerialMic.framePacket [5] 3 7).drop (11 + 2 * [5].length) =
      SerialMic.le_write16 (SerialMic.crc16_ccitt
        ((SerialMic.framePacket [5] 3 7).take (11 + 2 * [5].length))) :=
  framePacket_crc_trailer [5] 3 7 (by norm_num)

/-- The arithmetic right shift by k bits is Euclidean division by 2^k,
since the divisor is positive. -/
theorem asr_eq_ediv (x : Int) (k : Nat) : SerialMic.asr x k = x / 2 ^ k :=
  Int.fdiv_eq_ediv x (by positivity)

/-- Bounds on the running sum of a block of int16 samples. -/
theorem sum_foldl_bounds (l : List Int) :
    (∀ s ∈ l, -32768 ≤ s ∧ s ≤ 32767) →
    ∀ init : Int, init - 32768 * l.length ≤ l.foldl (· + ·) init ∧
      l.foldl (· + ·) init ≤ init + 32767 * l.length := by
  induction l with
  | nil => intro _ init; simp
  | cons s rest ih =>
    intro h init
    have hs := h s (List.mem_cons_self s rest)
    have hre := ih (fun x hx => h x (List.mem_cons_of_mem s hx)) (init + s)
    simp only [List.foldl_cons, List.length_cons]
    push_cast
    push_cast at hre
    constructor
    · linarith [hre.1, hs.1]
    · linarith [hre.2, hs.2]

/-- The truncating mean of a block bounded by the int16 range is itself
in the int16 range. -/
theorem tdiv_mean_bounds (sum n : Int) (hn : 0 < n)
    (hlo : -32768 * n ≤ sum) (hhi : sum ≤ 32767 * n) :
    -32768 ≤ Int.tdiv sum n ∧ Int.tdiv sum n ≤ 32767 := by
  rcases le_or_lt 0 sum with hs | hs
  · rw [Int.tdiv_eq_ediv hs (le_of_lt hn)]
    constructor
    · have : (0:Int) ≤ sum / n := Int.ediv_nonneg hs (le_of_lt hn)
      omega
    · have h2 := Int.ediv_le_ediv hn hhi
      rwa [Int.mul_ediv_cancel _ (by omega)] at h2
  · have hneg : Int.tdiv sum n = -(Int.tdiv (-sum) n) := by
      rw [Int.neg_tdiv, neg_neg]
    rw [hneg, Int.tdiv_eq_ediv (by omega) (le_of_lt hn)]
    constructor
    · have h2 := Int.ediv_le_ediv hn (show -sum ≤ 32768 * n by omega)
      rw [Int.mul_ediv_cancel _ (by omega)] at h2
      omega
    · have : (0:Int) ≤ (-sum) / n := Int.ediv_nonneg (by omega) (le_of_lt hn)
      omega

/-- The DC estimate produced by dc_block_and_copy on an int16 block
from a moderately bounded prior state agrees with the specification
update formula: none of the int32 stores wrap. -/
theorem dc_update_eq (a : List Int) (dc : Int) (hn : a ≠ [])
    (ha : ∀ s ∈ a, -32768 ≤ s ∧ s ≤ 32767)
    (h1 : -2 ^ 29 ≤ dc) (h2 : dc ≤ 2 ^ 29) :
    (SerialMic.dc_block_and_copy a dc).2 = SerialMic.dcUpdateSpec a dc := by
  have hlen : 0 < a.length := List.length_pos.mpr hn
  have hlen2 : (0:Int) < (a.length : Int) := by exact_mod_cast hlen
  have hb := sum_foldl_bounds a ha 0
  have hmean := tdiv_mean_bounds (a.foldl (· + ·) 0) (a.length : Int) hlen2
    (by have := hb.1; omega) (by have := hb.2; omega)
  show SerialMic.wrap32 (dc + SerialMic.asr (SerialMic.wrap32
      (SerialMic.wrap32 (Int.tdiv (a.foldl (· + ·) 0) (a.length : Int) * 2 ^ 15)
        - dc)) SerialMic.LERP_SHIFT) = SerialMic.dcUpdateSpec a dc
  rw [asr_eq_ediv]
  simp only [SerialMic.LERP_SHIFT]
  have w1 : SerialMic.wrap32
      (Int.tdiv (a.foldl (· + ·) 0) (a.length : Int) * 2 ^ 15) =
      Int.tdiv (a.foldl (· + ·) 0) (a.length : Int) * 2 ^ 15 := by
    unfold SerialMic.wrap32; omega
  rw [w1]
  have w2 : SerialMic.wrap32
      (Int.tdiv (a.foldl (· + ·) 0) (a.length : Int) * 2 ^ 15 - dc) =
      Int.tdiv (a.foldl (· + ·) 0) (a.length : Int) * 2 ^ 15 - dc := by
    unfold SerialMic.wrap32; omega
  rw [w2]
  have w3 : SerialMic.wrap32 (dc +
      (Int.tdiv (a.foldl (· + ·) 0) (a.length : Int) * 2 ^ 15 - dc) / 2 ^ 10) =
      dc +
      (Int.tdiv (a.foldl (· + ·) 0) (a.length : Int) * 2 ^ 15 - dc) / 2 ^ 10 := by
    unfold SerialMic.wrap32; omega
  rw [w3]
  unfold SerialMic.dcUpdateSpec
  rw [Int.fdiv_eq_ediv _ (by norm_num : (0:Int) ≤ 2 ^ 10)]

/-- C4: for every nonempty block of int16 samples and every prior DC
estimate in the reachable range, dc_block_and_copy computes the
truncating block mean in a wide accumulator, converts it to Q15,
updates the estimate to state + ((meanQ15 - state) >> 10), and rewrites
every sample to the int16 saturation of
((sample << 15) - state + (1 << 14)) >> 15 with the updated state,
where both shifts are gcc arithmetic shifts (floor division by the
power of two); no int32 store wraps on this range. -/
theorem dc_block_spec (a : List Int) (dc : Int) (hn : a ≠ [])
    (ha : ∀ s ∈ a, -32768 ≤ s ∧ s ≤ 32767)
    (h1 : -2 ^ 29 ≤ dc) (h2 : dc ≤ 2 ^ 29) :
    SerialMic.dc_block_and_copy a dc =
      (a.map (fun s => SerialMic.sat16
          (Int.fdiv (s * 2 ^ 15 - SerialMic.dcUpdateSpec a dc + 2 ^ 14)
            (2 ^ 15))),
       SerialMic.dcUpdateSpec a dc) := by
  have hlen : 0 < a.length := List.length_pos.mpr hn
  have hlen2 : (0:Int) < (a.length : Int) := by exact_mod_cast hlen
  have hb := sum_foldl_bounds a ha 0
  have hmean := tdiv_mean_bounds (a.foldl (· + ·) 0) (a.length : Int) hlen2
    (by have := hb.1; omega) (by have := hb.2; omega)
  have hDb : -(2:Int) ^ 30 ≤ SerialMic.dcUpdateSpec a dc ∧
      SerialMic.dcUpdateSpec a dc ≤ 2 ^ 30 := by
    unfold SerialMic.dcUpdateSpec
    rw [Int.fdiv_eq_ediv _ (by norm_num : (0:Int) ≤ 2 ^ 10)]
    constructor <;> omega
  apply Prod.ext
  · show a.map (fun s => SerialMic.sat16 (SerialMic.asr (SerialMic.wrap32
        (SerialMic.wrap32 (SerialMic.wrap32 (s * 2 ^ 15) -
          (SerialMic.dc_block_and_copy a dc).2) + 2 ^ 14)) 15)) = _
    rw [dc_update_eq a dc hn ha h1 h2]
    apply List.map_congr_left
    intro s hs
    obtain ⟨hs1, hs2⟩ := ha s hs
    rw [asr_eq_ediv, Int.fdiv_eq_ediv _ (by norm_num : (0:Int) ≤ 2 ^ 15)]
    refine congrArg SerialMic.sat16 ?_
    simp only [SerialMic.wrap32]
    omega
  · exact dc_update_eq a dc hn ha h1 h2

/-- Witness for C4 at the concrete one sample block [1000] with prior
estimate zero. -/
theorem dc_block_spec_witness :
    SerialMic.dc_block_and_copy [1000] 0 =
      ([1000].map (fun s => SerialMic.sat16
          (Int.fdiv (s * 2 ^ 15 - SerialMic.dcUpdateSpec [1000] 0 + 2 ^ 14)
            (2 ^ 15))),
       SerialMic.dcUpdateSpec [1000] 0) :=
  dc_block_spec [1000] 0 (by decide) (by decide) (by decide) (by decide)

/-- C9 counterexample: the block [1, -1] has zero sample mean, yet from
the prior estimate 2 ^ 20 the filter moves the estimate down by 1024,
far more than one rounding unit. -/
theorem dc_zero_mean_large_state_moves :
    List.foldl (· + ·) 0 [(1 : Int), -1] = 0
    ∧ (SerialMic.dc_block_and_copy [1, -1] 1048576).2 = 1047552
    ∧ ¬(1048576 - (SerialMic.dc_block_and_copy [1, -1] 1048576).2 ≤ 1) := by
  refine ⟨by decide, by decide, by decide⟩

/-- C9 amended: applying the filter to a zero mean block moves the DC
estimate by at most one unit provided the prior estimate is at most
2 ^ LERP_SHIFT = 1024 in magnitude.  In general the update on a zero
mean block is state := state + ((0 - state) >> 10), which slews the
estimate toward zero by a 1/1024 fraction instead of leaving it
fixed. -/
theorem dc_zero_mean_small_state (a : List Int) (dc : Int) (hn : a ≠ [])
    (hz : a.foldl (· + ·) 0 = 0) (h1 : -1024 ≤ dc) (h2 : dc ≤ 1024) :
    (SerialMic.dc_block_and_copy a dc).2 - dc ≤ 1 ∧
      dc - (SerialMic.dc_block_and_copy a dc).2 ≤ 1 := by
  have hshow : (SerialMic.dc_block_and_copy a dc).2 = SerialMic.wrap32
      (dc + SerialMic.asr (SerialMic.wrap32 (SerialMic.wrap32
        (Int.tdiv (a.foldl (· + ·) 0) (a.length : Int) * 2 ^ 15) - dc))
        SerialMic.LERP_SHIFT) := rfl
  rw [hshow, hz, Int.zero_tdiv, asr_eq_ediv]
  simp only [SerialMic.LERP_SHIFT]
  have w1 : SerialMic.wrap32 (0 * 2 ^ 15) = 0 := by
    unfold SerialMic.wrap32; omega
  rw [w1]
  have w2 : SerialMic.wrap32 (0 - dc) = 0 - dc := by
    unfold SerialMic.wrap32; omega
  rw [w2]
  have w3 : SerialMic.wrap32 (dc + (0 - dc) / 2 ^ 10) =
      dc + (0 - dc) / 2 ^ 10 := by
    unfold SerialMic.wrap32; omega
  rw [w3]
  constructor <;> omega

/-- Witness for the amended C9 at the concrete zero mean block [5, -5]
with prior estimate 1024. -/
theorem dc_zero_mean_small_state_witness :
    (SerialMic.dc_block_and_copy [5, -5] 1024).2 - 1024 ≤ 1 ∧
      1024 - (SerialMic.dc_block_and_copy [5, -5] 1024).2 ≤ 1 :=
  dc_zero_mean_small_state [5, -5] 1024 (by decide) (by decide)
    (by decide) (by decide)

/-- Decoding the sequence field of a framed packet recovers the framed
sequence number. -/
theorem decodeSeq_framePacket (samples : List Int) (s ts : Nat)
    (hs : s < 2 ^ 32) :
    SerialMic.decodeSeq (SerialMic.framePacket samples s ts) = s := by
  obtain ⟨tr, htr, hfp⟩ := framePacket_cons samples s ts
  rw [hfp]
  simp [SerialMic.decodeSeq, List.getD]
  omega

/-- Shifting the starting count of emitIndicesAux by one shifts every
collected index by one. -/
theorem emitIndicesAux_succ (cs : List SerialMic.CycleIn) :
    ∀ k, SerialMic.emitIndicesAux (k + 1) cs =
      (SerialMic.emitIndicesAux k cs).map (· + 1) := by
  induction cs with
  | nil => intro k; rfl
  | cons c cs ih =>
    intro k
    cases h1 : SerialMic.framedCycle c <;> cases h2 : c.allocOk <;>
      simp [SerialMic.emitIndicesAux, h1, h2, ih]

/-- Rebasing the sequence start across one framed cycle: mapping the
wrapped offsets of the shifted index list from s equals mapping the
offsets of the original list from the wrapped successor of s. -/
theorem map_mod_shift (l : List Nat) (s : Nat) :
    ((l.map (· + 1)).map (fun i => (s + i) % 2 ^ 32)) =
      l.map (fun i => ((s + 1) % 2 ^ 32 + i) % 2 ^ 32) := by
  rw [List.map_map]
  apply List.map_congr_left
  intro i _
  simp only [Function.comp]
  omega

/-- The emitted packets of a reader run decode, in order, to the
wrapped offsets s + i for the emit indices i of the trace. -/
theorem runReader_seqs (cs : List SerialMic.CycleIn) :
    ∀ s dc, s < 2 ^ 32 →
      ((SerialMic.runReader ⟨s, dc⟩ cs).2).map SerialMic.decodeSeq =
        (SerialMic.emitIndicesAux 0 cs).map (fun i => (s + i) % 2 ^ 32) := by
  induction cs with
  | nil => intro s dc h; rfl
  | cons c cs ih =>
    intro s dc h
    have hs1 : (s + 1) % 2 ^ 32 < 2 ^ 32 := Nat.mod_lt _ (by norm_num)
    match hr : c.read with
    | none =>
      have hf : SerialMic.framedCycle c = false := by
        simp [SerialMic.framedCycle, hr]
      simp only [SerialMic.runReader, SerialMic.readerStep, hr,
        SerialMic.emitIndicesAux, hf]
      exact ih s dc h
    | some samples =>
      have e1 : SerialMic.emitIndicesAux 1 cs =
          (SerialMic.emitIndicesAux 0 cs).map (· + 1) := by
        simpa using emitIndicesAux_succ cs 0
      by_cases hz : samples.length = 0
      · have hf : SerialMic.framedCycle c = false := by
          simp [SerialMic.framedCycle, hr, hz]
        simp only [SerialMic.runReader, SerialMic.readerStep, hr, hz,
          SerialMic.emitIndicesAux, hf, if_true]
        exact ih s dc h
      · have hf : SerialMic.framedCycle c = true := by
          simp [SerialMic.framedCycle, hr, hz]
        have ih' := ih ((s + 1) % 2 ^ 32)
          (SerialMic.dc_block_and_copy samples dc).2 hs1
        have hms := map_mod_shift (SerialMic.emitIndicesAux 0 cs) s
        simp only [Nat.reducePow] at ih' hms
        cases hA : c.allocOk
        · simp [SerialMic.runReader, SerialMic.readerStep, hr, hz, hf, hA,
            SerialMic.emitIndicesAux]
          rw [ih', e1, hms]
        · simp [SerialMic.runReader, SerialMic.readerStep, hr, hz, hf, hA,
            SerialMic.emitIndicesAux]
          refine ⟨?_, ?_⟩
          · rw [decodeSeq_framePacket _ _ _ h]
            omega
          · rw [ih', e1, hms]

/-- The emit indices collected from a count k form a strictly
increasing list whose members are all at least k. -/
theorem emitIndicesAux_chain (cs : List SerialMic.CycleIn) :
    ∀ k, List.Chain' (· < ·) (SerialMic.emitIndicesAux k cs) ∧
      ∀ x ∈ SerialMic.emitIndicesAux k cs, k ≤ x := by
  induction cs with
  | nil =>
    intro k
    exact ⟨List.chain'_nil, by simp [SerialMic.emitIndicesAux]⟩
  | cons c cs ih =>
    intro k
    cases h1 : SerialMic.framedCycle c
    · simpa [SerialMic.emitIndicesAux, h1] using ih k
    · cases h2 : c.allocOk
      · have := ih (k + 1)
        refine ⟨?_, ?_⟩
        · simpa [SerialMic.emitIndicesAux, h1, h2] using this.1
        · intro x hx
          simp only [SerialMic.emitIndicesAux, h1, h2, if_true, if_false] at hx
          have := this.2 x hx
          omega
      · have := ih (k + 1)
        refine ⟨?_, ?_⟩
        · simp only [SerialMic.emitIndicesAux, h1, h2, if_true]
          rw [List.chain'_cons']
          refine ⟨?_, this.1⟩
          intro y hy
          have hmem : y ∈ SerialMic.emitIndicesAux (k + 1) cs :=
            List.mem_of_mem_head? hy
          have := this.2 y hmem
          omega
        · intro x hx
          simp only [SerialMic.emitIndicesAux, h1, h2, if_true] at hx
          rcases List.mem_cons.mp hx with hx | hx
          · omega
          · have := this.2 x hx
            omega

/-- C1 counterexample: with a transport buffer allocation failure in
the middle cycle, the two packets that reach the queue carry sequence
numbers 0 and 2, so the second emitted seq is not one more than the
first mod 2 ^ 32: the dropped packet consumed sequence number 1. -/
theorem seq_gap_on_alloc_failure :
    ((SerialMic.runReader ⟨0, 0⟩
        [⟨some [0], 0, true⟩, ⟨some [0], 0, false⟩, ⟨some [0], 0, true⟩]).2).map
      SerialMic.decodeSeq = [0, 2]
    ∧ (2 : Nat) ≠ (0 + 1) % 2 ^ 32 := by
  refine ⟨by decide, by decide⟩

/-- C1 amended: the packets emitted by i2s_reader_task carry, in order,
the sequence values s + i mod 2 ^ 32 for the strictly increasing list
of indices i of their cycles among all framed cycles; hence consecutive
emitted packets differ in seq by one plus the number of
framed-but-dropped packets between them, and the seq values are
consecutive with no gaps exactly when no packet between them was
dropped by an allocation failure. -/
theorem emitted_seq_indices (cs : List SerialMic.CycleIn) (s : Nat)
    (dc : Int) (h : s < 2 ^ 32) :
    ((SerialMic.runReader ⟨s, dc⟩ cs).2).map SerialMic.decodeSeq =
      (SerialMic.emitIndices cs).map (fun i => (s + i) % 2 ^ 32)
    ∧ List.Chain' (· < ·) (SerialMic.emitIndices cs) :=
  ⟨runReader_seqs cs s dc h, (emitIndicesAux_chain cs 0).1⟩

/-- Witness for the amended C1 at the concrete three cycle trace whose
middle cycle drops its packet. -/
theorem emitted_seq_indices_witness :
    ((SerialMic.runReader ⟨0, 0⟩
        [⟨some [0], 0, true⟩, ⟨some [0], 0, false⟩, ⟨some [0], 0, true⟩]).2).map
      SerialMic.decodeSeq =
      (SerialMic.emitIndices
        [⟨some [0], 0, true⟩, ⟨some [0], 0, false⟩, ⟨some [0], 0, true⟩]).map
        (fun i => (0 + i) % 2 ^ 32)
    ∧ List.Chain' (· < ·) (SerialMic.emitIndices
        [⟨some [0], 0, true⟩, ⟨some [0], 0, false⟩, ⟨some [0], 0, true⟩]) :=
  emitted_seq_indices _ 0 0 (by norm_num)
